import Mathlib

/-!
Verification of `clock_diff.py`, an NTP clock-drift monitor.

The embedding models Python floats as rationals (`ℚ`), byte strings as
`List ℕ` (each entry a byte value), and the exceptions raised during one
poll-loop iteration as an explicit outcome type.  `struct.unpack("!II", b)`
raises `struct.error` unless `b` has exactly 8 bytes; Python slicing
`data[32:40]` never raises and simply truncates, which the model mirrors
with `(data.drop 32).take 8`.
-/

/-- Seconds between the NTP epoch (1900) and the Unix epoch (1970);
`NTP_DELTA = 2208988800` in the source. -/
def NTP_DELTA : ℕ := 2208988800

/-- Big-endian interpretation of a byte string, as `struct.unpack`'s `!I`
reads four bytes (and, applied to an arbitrary list, the fold the format
performs byte by byte). -/
def beNat (bs : List ℕ) : ℕ :=
  bs.foldl (fun acc b => acc * 256 + b) 0

/-- `get_ntp_time(timestamp_bytes)`: `struct.unpack("!II", timestamp_bytes)`
followed by `(seconds - NTP_DELTA) + fraction / 2**32`.  `struct.unpack`
raises `struct.error` unless the buffer has exactly 8 bytes, modelled as
`Except.error`. -/
def get_ntp_time (bs : List ℕ) : Except Unit ℚ :=
  if bs.length = 8 then
    .ok (((beNat (bs.take 4) : ℚ) - (NTP_DELTA : ℚ)) + (beNat (bs.drop 4) : ℚ) / 2 ^ 32)
  else
    .error ()

/-- `delay = (t4 - t1) - (t3 - t2)` from the loop body. -/
def calcDelay (t1 t2 t3 t4 : ℚ) : ℚ := (t4 - t1) - (t3 - t2)

/-- `offset = ((t2 - t1) + (t3 - t4)) / 2` from the loop body. -/
def calcOffset (t1 t2 t3 t4 : ℚ) : ℚ := ((t2 - t1) + (t3 - t4)) / 2

/-- One recorded sample: `{'offset': offset, 'delay': delay}`. -/
structure Sample where
  offset : ℚ
  delay : ℚ
deriving DecidableEq, Repr

/-- What the network interaction of one iteration produced: a reply datagram
(`recvfrom` returned `data`), `socket.timeout`, `socket.gaierror`, or some
other exception from `sendto`/`recvfrom`. -/
inductive NetEvent where
  | reply (data : List ℕ)
  | timeout
  | gaierror
  | otherErr
deriving DecidableEq, Repr

/-- Observable outcome of one loop iteration.
`recorded o d` — a sample was appended and the progress line printed;
`timedOut` — the `socket.timeout` handler printed "Request Timed Out";
`resolutionFailed` — the `socket.gaierror` handler printed the hostname
error and sleeps an extra second; `genericError` — the catch-all
`except Exception` handler printed a generic error line; `silentSkip` —
the reply was empty, so `if data:` was false and nothing was printed,
raised or recorded. -/
inductive IterOutcome where
  | recorded (offset delay : ℚ)
  | timedOut
  | resolutionFailed
  | genericError
  | silentSkip
deriving DecidableEq, Repr

/-- Result of one loop iteration: the sample list after the iteration, the
outcome, and whether `get_ntp_time(data[32:40])` (the `t2` field) returned
a value during the iteration (records whether a partial decode of the
timestamp fields happened before any failure). -/
structure IterResult where
  results : List Sample
  outcome : IterOutcome
  t2Decoded : Bool
deriving DecidableEq, Repr

/-- One iteration of the poll loop body (lines 55–84 of the source), given
the local clock readings `t1`, `t4` and the network event.  On a reply,
mirrors `if data:` then `t2 = get_ntp_time(data[32:40])`,
`t3 = get_ntp_time(data[40:48])`, the delay/offset computation and
`results.append(...)`; a `struct.error` escaping `get_ntp_time` is caught
by the catch-all `except Exception` handler. -/
def pollStep (t1 t4 : ℚ) (ev : NetEvent) (results : List Sample) : IterResult :=
  match ev with
  | .timeout => ⟨results, .timedOut, false⟩
  | .gaierror => ⟨results, .resolutionFailed, false⟩
  | .otherErr => ⟨results, .genericError, false⟩
  | .reply data =>
    if data.isEmpty then ⟨results, .silentSkip, false⟩
    else
      match get_ntp_time ((data.drop 32).take 8) with
      | .error _ => ⟨results, .genericError, false⟩
      | .ok t2 =>
        match get_ntp_time ((data.drop 40).take 8) with
        | .error _ => ⟨results, .genericError, true⟩
        | .ok t3 =>
          let delay := calcDelay t1 t2 t3 t4
          let offset := calcOffset t1 t2 t3 t4
          ⟨results ++ [⟨offset, delay⟩], .recorded offset delay, true⟩

/-- The summary's verdict line: ACCURATE within 0.5 s, otherwise DRIFTING. -/
inductive Classification where
  | ACCURATE
  | DRIFTING
deriving DecidableEq, Repr

/-- `if abs(avg_offset) <= 0.5` from the summary block. -/
def classify (avg_offset : ℚ) : Classification :=
  if |avg_offset| ≤ 1 / 2 then .ACCURATE else .DRIFTING

/-- Python's built-in `max` on a non-empty list (junk value on `[]`, where
the built-in raises; the summary only calls it on non-empty input). -/
def pyMax : List ℚ → ℚ
  | [] => 0
  | x :: xs => xs.foldl max x

/-- Python's built-in `min` on a non-empty list (junk value on `[]`). -/
def pyMin : List ℚ → ℚ
  | [] => 0
  | x :: xs => xs.foldl min x

/-- The aggregate values the summary block computes and prints.  The source
prints `std_dev = math.sqrt(variance)`; the model records the (rational)
`variance`, and the standard deviation is `Real.sqrt` of it in the
statements. -/
structure Summary where
  count : ℕ
  avg_offset : ℚ
  max_offset : ℚ
  min_offset : ℚ
  avg_delay : ℚ
  variance : ℚ
  verdict : Classification
deriving DecidableEq, Repr

/-- The summary report (lines 92–119 of the source): `if results:` guards
every computation, so the empty collection takes the "No data collected."
path (`none`) and performs no division. -/
def summarize (results : List Sample) : Option Summary :=
  match results with
  | [] => none
  | r :: rs =>
    let offsets := (r :: rs).map Sample.offset
    let delays := (r :: rs).map Sample.delay
    let count := offsets.length
    let avg_offset := offsets.sum / (count : ℚ)
    let variance := ((offsets.map (fun x => (x - avg_offset) ^ 2)).sum) / (count : ℚ)
    some
      { count := count
        avg_offset := avg_offset
        max_offset := pyMax offsets
        min_offset := pyMin offsets
        avg_delay := delays.sum / (count : ℚ)
        variance := variance
        verdict := classify avg_offset }

/-- Big-endian encoding of a 32-bit word into four bytes (16777216 = 2^24,
65536 = 2^16); the inverse construction the spec's round-trip property
describes. -/
def encWord (n : ℕ) : List ℕ :=
  [n / 16777216 % 256, n / 65536 % 256, n / 256 % 256, n % 256]

/-- Encoding of a (seconds, fraction) pair as the 8-byte fixed-point wire
timestamp. -/
def encodeTimestamp (s f : ℕ) : List ℕ :=
  encWord s ++ encWord f

theorem beNat_encWord (n : ℕ) (h : n < 2 ^ 32) : beNat (encWord n) = n := by
  simp only [beNat, encWord, List.foldl]
  omega

theorem foldl_max_mem (x : ℚ) (xs : List ℚ) :
    xs.foldl max x = x ∨ xs.foldl max x ∈ xs := by
  induction xs generalizing x with
  | nil => exact Or.inl rfl
  | cons a as ih =>
    rw [List.foldl_cons]
    rcases ih (max x a) with h | h
    · rcases max_choice x a with hx | hx
      · exact Or.inl (h.trans hx)
      · exact Or.inr (by rw [h, hx]; exact List.mem_cons_self a as)
    · exact Or.inr (List.mem_cons_of_mem a h)

theorem le_foldl_max (x : ℚ) (xs : List ℚ) : x ≤ xs.foldl max x := by
  induction xs generalizing x with
  | nil => exact le_refl x
  | cons a as ih => exact le_trans (le_max_left x a) (ih (max x a))

theorem mem_le_foldl_max (x y : ℚ) (xs : List ℚ) (hy : y ∈ xs) :
    y ≤ xs.foldl max x := by
  induction xs generalizing x with
  | nil => cases hy
  | cons a as ih =>
    rw [List.foldl_cons]
    rcases List.mem_cons.mp hy with h | h
    · subst h
      exact le_trans (le_max_right x y) (le_foldl_max (max x y) as)
    · exact ih (max x a) h

theorem foldl_min_mem (x : ℚ) (xs : List ℚ) :
    xs.foldl min x = x ∨ xs.foldl min x ∈ xs := by
  induction xs generalizing x with
  | nil => exact Or.inl rfl
  | cons a as ih =>
    rw [List.foldl_cons]
    rcases ih (min x a) with h | h
    · rcases min_choice x a with hx | hx
      · exact Or.inl (h.trans hx)
      · exact Or.inr (by rw [h, hx]; exact List.mem_cons_self a as)
    · exact Or.inr (List.mem_cons_of_mem a h)

theorem foldl_min_le (x : ℚ) (xs : List ℚ) : xs.foldl min x ≤ x := by
  induction xs generalizing x with
  | nil => exact le_refl x
  | cons a as ih => exact le_trans (ih (min x a)) (min_le_left x a)

theorem foldl_min_le_mem (x y : ℚ) (xs : List ℚ) (hy : y ∈ xs) :
    xs.foldl min x ≤ y := by
  induction xs generalizing x with
  | nil => cases hy
  | cons a as ih =>
    rw [List.foldl_cons]
    rcases List.mem_cons.mp hy with h | h
    · subst h
      exact le_trans (foldl_min_le (min x y) as) (min_le_right x y)
    · exact ih (min x a) h

/-- C2: the calculator returns `delay = (t4 - t1) - (t3 - t2)` and
`offset = ((t2 - t1) + (t3 - t4)) / 2`; at `t1=1000.0, t2=1000.5,
t3=1000.6, t4=1000.2` it returns `delay = 0.1` and `offset = 0.45`. -/
theorem offset_delay_formulas :
    (∀ t1 t2 t3 t4 : ℚ, calcDelay t1 t2 t3 t4 = (t4 - t1) - (t3 - t2)) ∧
    (∀ t1 t2 t3 t4 : ℚ, calcOffset t1 t2 t3 t4 = ((t2 - t1) + (t3 - t4)) / 2) ∧
    calcDelay 1000 (2001 / 2) (5003 / 5) (5001 / 5) = 1 / 10 ∧
    calcOffset 1000 (2001 / 2) (5003 / 5) (5001 / 5) = 9 / 20 := by
  refine ⟨fun _ _ _ _ => rfl, fun _ _ _ _ => rfl, ?_, ?_⟩ <;> norm_num [calcDelay, calcOffset]

/-- C3: on any 8-byte input, `get_ntp_time` reads the first four bytes as a
big-endian 32-bit seconds value, the last four as a big-endian 32-bit
fraction, and returns `(seconds - 2208988800) + fraction / 2^32` (pure:
value-returning, no state in the model). -/
theorem ntp_time_decode_eq (a b c d e f g h : ℕ) :
    get_ntp_time [a, b, c, d, e, f, g, h] =
      .ok ((((a * 2 ^ 24 + b * 2 ^ 16 + c * 2 ^ 8 + d : ℕ) : ℚ) - 2208988800) +
        ((e * 2 ^ 24 + f * 2 ^ 16 + g * 2 ^ 8 + h : ℕ) : ℚ) / 2 ^ 32) := by
  simp only [get_ntp_time, NTP_DELTA, List.length_cons, List.length_nil, if_pos,
    List.take, List.drop, beNat, List.foldl]
  norm_num
  ring_nf

/-- C7: on any input of fewer than 8 bytes, `get_ntp_time` fails with a
decoding error (`struct.error` from `struct.unpack`) instead of returning a
value. -/
theorem ntp_time_short_input_error (bs : List ℕ) (h : bs.length < 8) :
    get_ntp_time bs = .error () := by
  unfold get_ntp_time
  rw [if_neg (by omega)]

theorem ntp_time_short_input_error_witness :
    [0, 1, 2, 3, 4].length < 8 ∧ get_ntp_time [0, 1, 2, 3, 4] = .error () :=
  ⟨by decide, ntp_time_short_input_error [0, 1, 2, 3, 4] (by decide)⟩

/-- C1 as stated is false: it asserts that every reply shorter than 48
bytes reaches the malformed-reply (generic error) path without any partial
decode of the timestamp fields and without touching the sample list.  A
40-byte reply of zeros refutes the no-partial-decode part: `data[32:40]`
still holds 8 bytes, so `t2` is fully decoded before the decode of
`data[40:48]` fails.  (A 0-byte reply refutes it differently: `if data:`
skips the iteration with no error at all.) -/
theorem short_reply_counterexample :
    ¬ (∀ (data : List ℕ) (t1 t4 : ℚ) (results : List Sample), data.length < 48 →
        (pollStep t1 t4 (.reply data) results).outcome = .genericError ∧
        (pollStep t1 t4 (.reply data) results).t2Decoded = false ∧
        (pollStep t1 t4 (.reply data) results).results = results) := by
  intro hclaim
  have h := hclaim (List.replicate 40 0) 0 0 [] (by decide)
  exact absurd h.2.1 (by decide)

/-- C1 amended: every non-empty reply shorter than 48 bytes ends the
iteration in the generic error path (which is how a malformed reply is
reported — the `struct.error` is absorbed by the catch-all handler, not
thrown further) and appends no sample; but the first timestamp field is
(partially) decoded exactly when the reply holds at least 40 bytes, and a
zero-byte reply is skipped silently instead. -/
theorem short_reply_generic_error (data : List ℕ) (t1 t4 : ℚ) (results : List Sample)
    (hpos : 0 < data.length) (hlt : data.length < 48) :
    (pollStep t1 t4 (.reply data) results).outcome = .genericError ∧
    (pollStep t1 t4 (.reply data) results).results = results ∧
    ((pollStep t1 t4 (.reply data) results).t2Decoded = true ↔ 40 ≤ data.length) := by
  have hne : data.isEmpty = false := by
    cases data with
    | nil => simp at hpos
    | cons a as => rfl
  have h2len : ((data.drop 32).take 8).length = min 8 (data.length - 32) := by
    simp [List.length_take, List.length_drop]
  have h3len : ((data.drop 40).take 8).length = min 8 (data.length - 40) := by
    simp [List.length_take, List.length_drop]
  by_cases h40 : 40 ≤ data.length
  · have h2 : 8 ≤ data.length - 32 := by omega
    have h3 : ¬ 8 ≤ data.length - 40 := by omega
    simp [pollStep, hne, get_ntp_time, h2, h3, h40]
  · have h2 : ¬ 8 ≤ data.length - 32 := by omega
    simp [pollStep, hne, get_ntp_time, h2, h40]

theorem short_reply_generic_error_witness :
    0 < ([0, 0, 0, 0, 0, 0, 0, 0, 0, 0] : List ℕ).length ∧
    ([0, 0, 0, 0, 0, 0, 0, 0, 0, 0] : List ℕ).length < 48 ∧
    ((pollStep 0 0 (.reply [0, 0, 0, 0, 0, 0, 0, 0, 0, 0]) []).outcome = .genericError ∧
     (pollStep 0 0 (.reply [0, 0, 0, 0, 0, 0, 0, 0, 0, 0]) []).results = [] ∧
     ((pollStep 0 0 (.reply [0, 0, 0, 0, 0, 0, 0, 0, 0, 0]) []).t2Decoded = true ↔
       40 ≤ ([0, 0, 0, 0, 0, 0, 0, 0, 0, 0] : List ℕ).length)) :=
  ⟨by decide, by decide,
    short_reply_generic_error [0, 0, 0, 0, 0, 0, 0, 0, 0, 0] 0 0 [] (by decide) (by decide)⟩

/-- C6: an iteration that ends in an error (timeout, resolution failure, or
the generic error path — malformed reply or any other exception) leaves the
sample list unchanged; a sample is appended only when the whole
exchange-plus-calculation succeeded, and then it is exactly the computed
offset/delay pair appended at the end. -/
theorem samples_unchanged_on_error (t1 t4 : ℚ) (results : List Sample) :
    (pollStep t1 t4 .timeout results).results = results ∧
    (pollStep t1 t4 .gaierror results).results = results ∧
    (pollStep t1 t4 .otherErr results).results = results ∧
    ∀ data : List ℕ,
      (pollStep t1 t4 (.reply data) results).results = results ∨
      ∃ o d, (pollStep t1 t4 (.reply data) results).outcome = .recorded o d ∧
        (pollStep t1 t4 (.reply data) results).results = results ++ [⟨o, d⟩] := by
  refine ⟨rfl, rfl, rfl, fun data => ?_⟩
  by_cases hemp : data.isEmpty
  · left
    simp [pollStep, hemp]
  · rcases h2 : get_ntp_time ((data.drop 32).take 8) with e | t2
    · left
      simp [pollStep, hemp, h2]
    · rcases h3 : get_ntp_time ((data.drop 40).take 8) with e | t3
      · left
        simp [pollStep, hemp, h2, h3]
      · right
        refine ⟨calcOffset t1 t2 t3 t4, calcDelay t1 t2 t3 t4, ?_, ?_⟩ <;>
          simp [pollStep, hemp, h2, h3]

/-- C9: an empty sample collection takes the "No data collected." path: the
summary produces no aggregate record at all, hence emits no numeric output
and performs none of the divisions. -/
theorem empty_summary_none : summarize [] = none := rfl

/-- C10: a zero-byte reply makes `if data:` false, so the iteration parses
nothing, records no sample, prints no progress line and raises no error
condition — the outcome is the silent skip straight to the sleep. -/
theorem empty_reply_silent_skip (t1 t4 : ℚ) (results : List Sample) :
    pollStep t1 t4 (.reply []) results = ⟨results, .silentSkip, false⟩ := rfl

/-- C4: on a non-empty sample list the summary computes `count`, the mean
of the offsets, their maximum and minimum, the mean delay, and the
population variance (denominator `count`, not `count - 1`) whose square
root is the reported standard deviation; for offsets `[0.1, 0.2, 0.3]` it
yields `avg = 0.2`, `min = 0.1`, `max = 0.3` and
`std_dev = sqrt(((0.1)^2 + 0 + (0.1)^2)/3) = sqrt(1/150)`. -/
theorem summary_aggregates :
    (∀ (r : Sample) (rs : List Sample), ∃ s, summarize (r :: rs) = some s ∧
      s.count = (r :: rs).length ∧
      s.avg_offset = ((r :: rs).map Sample.offset).sum / ((r :: rs).length : ℚ) ∧
      s.max_offset ∈ (r :: rs).map Sample.offset ∧
      (∀ y ∈ (r :: rs).map Sample.offset, y ≤ s.max_offset) ∧
      s.min_offset ∈ (r :: rs).map Sample.offset ∧
      (∀ y ∈ (r :: rs).map Sample.offset, s.min_offset ≤ y) ∧
      s.avg_delay = ((r :: rs).map Sample.delay).sum / ((r :: rs).length : ℚ) ∧
      s.variance = (((r :: rs).map Sample.offset).map
        (fun x => (x - s.avg_offset) ^ 2)).sum / ((r :: rs).length : ℚ) ∧
      Real.sqrt (s.variance : ℝ) = Real.sqrt (((((r :: rs).map Sample.offset).map
        (fun x => (x - s.avg_offset) ^ 2)).sum / ((r :: rs).length : ℚ) : ℚ) : ℝ)) ∧
    (∃ s, summarize [⟨1/10, 0⟩, ⟨2/10, 0⟩, ⟨3/10, 0⟩] = some s ∧
      s.avg_offset = 1/5 ∧ s.min_offset = 1/10 ∧ s.max_offset = 3/10 ∧
      s.variance = 1/150 ∧
      Real.sqrt (s.variance : ℝ) =
        Real.sqrt (((1/10 - 1/5) ^ 2 + (2/10 - 1/5) ^ 2 + (3/10 - 1/5) ^ 2) / 3)) := by
  constructor
  · intro r rs
    simp only [summarize]
    refine ⟨_, rfl, ?_, ?_, ?_, ?_, ?_, ?_, ?_, ?_, ?_⟩
    · simp
    · simp
    · rcases foldl_max_mem (r.offset) (rs.map Sample.offset) with h | h
      · simp [pyMax, h]
      · simp only [pyMax, List.map_cons]
        exact List.mem_cons_of_mem _ h
    · intro y hy
      rw [List.map_cons] at hy
      simp only [pyMax, List.map_cons]
      rcases List.mem_cons.mp hy with h | h
      · subst h
        exact le_foldl_max r.offset (rs.map Sample.offset)
      · exact mem_le_foldl_max r.offset y (rs.map Sample.offset) h
    · rcases foldl_min_mem (r.offset) (rs.map Sample.offset) with h | h
      · simp [pyMin, h]
      · simp only [pyMin, List.map_cons]
        exact List.mem_cons_of_mem _ h
    · intro y hy
      rw [List.map_cons] at hy
      simp only [pyMin, List.map_cons]
      rcases List.mem_cons.mp hy with h | h
      · subst h
        exact foldl_min_le r.offset (rs.map Sample.offset)
      · exact foldl_min_le_mem r.offset y (rs.map Sample.offset) h
    · simp
    · simp
    · simp
  · have h : summarize [⟨1/10, 0⟩, ⟨2/10, 0⟩, ⟨3/10, 0⟩] =
        some ⟨3, 1/5, 3/10, 1/10, 0, 1/150, .ACCURATE⟩ := by
      simp only [summarize, List.map_cons, List.map_nil, List.sum_cons, List.sum_nil,
        List.length_cons, List.length_nil, pyMax, pyMin, List.foldl_cons, List.foldl_nil,
        classify, Option.some.injEq, Summary.mk.injEq]
      norm_num [max_def, min_def, abs_le]
    refine ⟨_, h, rfl, rfl, rfl, rfl, ?_⟩
    congr 1
    push_cast
    norm_num

/-- C5: the summary classifies the clock as ACCURATE exactly when
`|avg_offset| ≤ 0.5` and as DRIFTING otherwise; an average offset of `0.5`
is ACCURATE and one of `0.500001` is DRIFTING. -/
theorem summary_classification :
    (∀ (r : Sample) (rs : List Sample), ∃ s, summarize (r :: rs) = some s ∧
      (s.verdict = Classification.ACCURATE ↔ |s.avg_offset| ≤ 1/2) ∧
      (s.verdict = Classification.DRIFTING ↔ ¬ |s.avg_offset| ≤ 1/2)) ∧
    (∃ s, summarize [⟨1/2, 0⟩] = some s ∧
      s.avg_offset = 1/2 ∧ s.verdict = Classification.ACCURATE) ∧
    (∃ s, summarize [⟨500001/1000000, 0⟩] = some s ∧
      s.avg_offset = 500001/1000000 ∧ s.verdict = Classification.DRIFTING) := by
  refine ⟨?_, ?_, ?_⟩
  · intro r rs
    simp only [summarize]
    refine ⟨_, rfl, ?_, ?_⟩ <;>
      · simp only [classify]
        split <;> simp_all
  · have h : summarize [⟨1/2, 0⟩] = some ⟨1, 1/2, 1/2, 1/2, 0, 0, .ACCURATE⟩ := by
      simp only [summarize, List.map_cons, List.map_nil, List.sum_cons, List.sum_nil,
        List.length_cons, List.length_nil, pyMax, pyMin, List.foldl_cons, List.foldl_nil,
        classify, Option.some.injEq, Summary.mk.injEq]
      norm_num [abs_le]
    exact ⟨_, h, rfl, rfl⟩
  · have h : summarize [⟨500001/1000000, 0⟩] =
        some ⟨1, 500001/1000000, 500001/1000000, 500001/1000000, 0, 0, .DRIFTING⟩ := by
      simp only [summarize, List.map_cons, List.map_nil, List.sum_cons, List.sum_nil,
        List.length_cons, List.length_nil, pyMax, pyMin, List.foldl_cons, List.foldl_nil,
        classify, Option.some.injEq, Summary.mk.injEq]
      norm_num [abs_le]
    exact ⟨_, h, rfl, rfl⟩

/-- C8: encoding any seconds value `s < 2^32` and fraction `f < 2^32` as
two big-endian 32-bit words and decoding the 8 bytes with `get_ntp_time`
yields a value within `1/2^32` of `(s - 2208988800) + f/2^32` (here the
decode is exact, so the distance is zero). -/
theorem codec_round_trip (s f : ℕ) (hs : s < 2 ^ 32) (hf : f < 2 ^ 32) :
    ∃ v, get_ntp_time (encodeTimestamp s f) = .ok v ∧
      |v - (((s : ℚ) - 2208988800) + (f : ℚ) / 2 ^ 32)| ≤ 1 / 2 ^ 32 := by
  have hlen : (encodeTimestamp s f).length = 8 := by
    simp [encodeTimestamp, encWord]
  have htake : (encodeTimestamp s f).take 4 = encWord s := rfl
  have hdrop : (encodeTimestamp s f).drop 4 = encWord f := rfl
  refine ⟨((beNat (encWord s) : ℚ) - (NTP_DELTA : ℚ)) + (beNat (encWord f) : ℚ) / 2 ^ 32,
    ?_, ?_⟩
  · unfold get_ntp_time
    rw [if_pos hlen, htake, hdrop]
  · rw [beNat_encWord s hs, beNat_encWord f hf,
      show (NTP_DELTA : ℚ) = 2208988800 by norm_num [NTP_DELTA]]
    simp

theorem codec_round_trip_witness :
    2208988800 < 2 ^ 32 ∧ 1 < 2 ^ 32 ∧
    (∃ v, get_ntp_time (encodeTimestamp 2208988800 1) = .ok v ∧
      |v - ((((2208988800 : ℕ) : ℚ) - 2208988800) + ((1 : ℕ) : ℚ) / 2 ^ 32)| ≤ 1 / 2 ^ 32) :=
  ⟨by norm_num, by norm_num, codec_round_trip 2208988800 1 (by norm_num) (by norm_num)⟩
